import Mathlib

/-!
# Connection pool and contract wrapper of the arbitrage bot

Shallow embedding of `pkg/node/manager.go` (type `NodeManager`) and of the
constructor of `pkg/contracts/arbitrage.go`.

* A connection handle (`*ethclient.Client`) is a value `Client`: the number of
  the dial attempt that created it (every `ethclient.Dial` allocates a fresh
  handle) together with the URL it was dialed from.
* The network is an oracle: `dial k u` tells whether the `k`-th dial attempt,
  made on URL `u`, succeeds; `probe c` tells whether `BlockNumber` on handle
  `c` returns without error.
* `rand.Intn n` is `draw % n` for an arbitrary natural number `draw`.
* `map[string]bool` is an association list with Go's read and write.
* A Go run-time panic is the error of `Except GoPanic`.
* The loop of `StartHealthCheck` runs through the moments at which it reaches
  its `select`; a moment says which channels are ready, which ready case the
  run time takes, and when the context is cancelled with respect to the calls
  of a refresh: `BlockNumber(ctx)` fails once `ctx` is cancelled.
-/

namespace Node

/-! ## Data model -/

/-- A live connection handle: `id` is the number of the dial attempt that
created it, `url` the endpoint it is bound to. -/
structure Client where
  id : Nat
  url : String
deriving DecidableEq, Repr

/-- Outcome of the dial attempts: attempt number and URL to success. -/
abbrev DialOracle := Nat → String → Bool

/-- Outcome of the liveness probes (`BlockNumber`) of one refresh. -/
abbrev ProbeOracle := Client → Bool

/-- Go map `map[string]bool`. -/
abbrev HealthMap := List (String × Bool)

/-- Map write `hm[k] = v`: overwrite the entry of `k`, or add one. -/
def mapSet : HealthMap → String → Bool → HealthMap
  | [], k, v => [(k, v)]
  | (k', v') :: rest, k, v =>
    if k' = k then (k, v) :: rest else (k', v') :: mapSet rest k v

/-- Map read `hm[k]`: the stored value, `false` when `k` is not a key. -/
def mapGet : HealthMap → String → Bool
  | [], _ => false
  | (k', v') :: rest, k => if k' = k then v' else mapGet rest k

/-- Keys of the map. -/
def mapKeys (hm : HealthMap) : List String := hm.map Prod.fst

deriving instance DecidableEq for Except

/-- A run-time panic of the Go program. -/
inductive GoPanic where
  /-- "index out of range" -/
  | indexOutOfRange
  /-- `time.NewTicker`: "non-positive interval for NewTicker" -/
  | nonPositiveInterval
deriving DecidableEq, Repr

/-- The two errors `NewNodeManager` returns. -/
inductive ConstructError where
  /-- "at least one RPC endpoint is required" -/
  | noEndpoints
  /-- "connecting to primary endpoint: ..." -/
  | primaryDial
deriving DecidableEq, Repr

/-- The struct `NodeManager` (the mutex is not data). `primaryClient` is a
pointer the code tests against nil; the two slices hold the handles that were
appended after a successful dial. -/
structure NodeManager where
  primaryClient : Option Client
  backupClients : List Client
  wsClients : List Client
  healthChecks : HealthMap
  endpoints : List String
  wsEndpoints : List String
deriving DecidableEq, Repr

/-! ## Construction -/

/-- The two dial loops of `NewNodeManager`: dial every URL in order, attempt
numbers counting up from `k`; a handle is appended on success, the URL is
skipped (`continue`) on failure. -/
def dialAll (dial : DialOracle) : Nat → List String → List Client
  | _, [] => []
  | k, u :: us =>
    if dial k u then ⟨k, u⟩ :: dialAll dial (k + 1) us
    else dialAll dial (k + 1) us

/-- The last loop of `NewNodeManager`: `healthChecks[endpoint] = true` for
every element of `rpcEndpoints`. -/
def initHealth (rpcEndpoints : List String) : HealthMap :=
  rpcEndpoints.foldl (fun hm endpoint => mapSet hm endpoint true) []

/-- `NewNodeManager(rpcEndpoints, wsEndpoints)`. The second component is the
list of URLs on which `ethclient.Dial` was called, in order. -/
def NewNodeManager (dial : DialOracle) (rpcEndpoints wsEndpoints : List String) :
    Except ConstructError NodeManager × List String :=
  match rpcEndpoints with
  | [] => (.error .noEndpoints, [])
  | primary :: backups =>
    if dial 0 primary then
      (.ok
        { primaryClient := some ⟨0, primary⟩
          backupClients := dialAll dial 1 backups
          wsClients := dialAll dial rpcEndpoints.length wsEndpoints
          healthChecks := initHealth rpcEndpoints
          endpoints := rpcEndpoints
          wsEndpoints := wsEndpoints },
       rpcEndpoints ++ wsEndpoints)
    else (.error .primaryDial, [primary])

/-! ## Selection -/

/-- `rand.Intn(n)` for `n > 0`: some value below `n`, fixed by the draw. -/
def randIntn (draw n : Nat) : Nat := draw % n

/-- Slice indexing `s[i]`, which panics out of range. -/
def index (s : List Client) (i : Nat) : Except GoPanic Client :=
  match s[i]? with
  | some c => .ok c
  | none => .error .indexOutOfRange

/-- `GetClient()`: the returned pointer, `none` being nil. -/
def GetClient (m : NodeManager) (draw : Nat) : Except GoPanic (Option Client) :=
  match m.endpoints with
  | [] => .error .indexOutOfRange
  | primaryURL :: _ =>
    if mapGet m.healthChecks primaryURL then .ok m.primaryClient
    else if m.backupClients.length > 0 then
      (index m.backupClients (randIntn draw m.backupClients.length)).map some
    else .ok m.primaryClient

/-- `GetWSClient()`: the returned pointer, `none` being nil. -/
def GetWSClient (m : NodeManager) (draw : Nat) : Except GoPanic (Option Client) :=
  if m.wsClients.length = 0 then .ok none
  else (index m.wsClients (randIntn draw m.wsClients.length)).map some

/-! ## Health refresh -/

/-- The loop over the backups in `checkHealth`: the `i`-th backup handle is
probed and the result stored under `endpoints[i+1]`, when that index exists. -/
def checkBackups (probe : ProbeOracle) (endpoints : List String) :
    Nat → List Client → HealthMap → HealthMap
  | _, [], hm => hm
  | i, client :: rest, hm =>
    if h : i + 1 < endpoints.length then
      checkBackups probe endpoints (i + 1) rest
        (mapSet hm (endpoints.get ⟨i + 1, h⟩) (probe client))
    else checkBackups probe endpoints (i + 1) rest hm

/-- `checkHealth(ctx)`. -/
def checkHealth (probe : ProbeOracle) (m : NodeManager) : Except GoPanic NodeManager :=
  match m.primaryClient with
  | some c =>
    match m.endpoints with
    | [] => .error .indexOutOfRange
    | primaryURL :: _ =>
      .ok { m with
        healthChecks := checkBackups probe m.endpoints 0 m.backupClients
          (mapSet m.healthChecks primaryURL (probe c)) }
  | none =>
    .ok { m with
      healthChecks := checkBackups probe m.endpoints 0 m.backupClients m.healthChecks }

/-- Any number of refreshes in a row, one probe oracle per refresh. -/
def checkHealthMany : List ProbeOracle → NodeManager → Except GoPanic NodeManager
  | [], m => .ok m
  | probe :: rest, m =>
    match checkHealth probe m with
    | .ok m' => checkHealthMany rest m'
    | .error e => .error e

/-! ## Health refresh under a context -/

/-- `client.BlockNumber(ctx)` returns without error: `ctx` is not cancelled
before the call has completed (a call made on a cancelled context, and a call
still outstanding when the context is cancelled, return the error of the
context), and the node behind the handle answers. -/
def BlockNumber (cancelled : Bool) (net : ProbeOracle) (client : Client) : Bool :=
  !cancelled && net client

/-- The loop over the backups in `checkHealth(ctx)`, the context explicit:
`ctx k` tells whether `ctx` is cancelled before call number `k` of the refresh
has completed (call 0 is the one on the primary, call `i+1` the one on the
`i`-th backup); `net` tells which nodes answer. -/
def checkBackupsCtx (ctx : Nat → Bool) (net : ProbeOracle) (endpoints : List String) :
    Nat → List Client → HealthMap → HealthMap
  | _, [], hm => hm
  | i, client :: rest, hm =>
    if h : i + 1 < endpoints.length then
      checkBackupsCtx ctx net endpoints (i + 1) rest
        (mapSet hm (endpoints.get ⟨i + 1, h⟩) (BlockNumber (ctx (i + 1)) net client))
    else checkBackupsCtx ctx net endpoints (i + 1) rest hm

/-- `checkHealth(ctx)`, the context explicit. `checkHealth probe` above is
the same function with the result of every `BlockNumber(ctx)` given by
`probe`. -/
def checkHealthCtx (ctx : Nat → Bool) (net : ProbeOracle) (m : NodeManager) :
    Except GoPanic NodeManager :=
  match m.primaryClient with
  | some c =>
    match m.endpoints with
    | [] => .error .indexOutOfRange
    | primaryURL :: _ =>
      .ok { m with
        healthChecks := checkBackupsCtx ctx net m.endpoints 0 m.backupClients
          (mapSet m.healthChecks primaryURL (BlockNumber (ctx 0) net c)) }
  | none =>
    .ok { m with
      healthChecks := checkBackupsCtx ctx net m.endpoints 0 m.backupClients m.healthChecks }

/-! ## Health monitor loop -/

/-- What the loop of `StartHealthCheck` meets each time it reaches its
`select`: whether `ctx.Done()` is closed, whether a tick waits on `ticker.C`,
which of the two ready cases the Go run time chooses when both can proceed
(it chooses one of them at random), which nodes answer a probe, and, for a
refresh begun now on a context not yet cancelled, after how many completed
`BlockNumber` calls the cancellation is raised (`none`: not during this
refresh). -/
structure Moment where
  done : Bool
  tick : Bool
  pickTick : Bool
  net : ProbeOracle
  cancelAfter : Option Nat

/-- The context as call number `k` of a refresh begun at moment `w` sees it:
cancelled from the start when `ctx.Done()` was closed already, otherwise
cancelled from the call during which the cancellation is raised. -/
def cancelledAt (w : Moment) (k : Nat) : Bool :=
  w.done ||
    match w.cancelAfter with
    | some n => decide (n ≤ k)
    | none => false

/-- The two cases of the `select` statement. -/
inductive SelectCase where
  | ctxDone
  | tickerC
deriving DecidableEq, Repr

/-- Go's `select` over `ctx.Done()` and `ticker.C`: a case that can proceed
is taken; with both ready the run time picks; with none the statement blocks
(`none`). -/
def selectCase (w : Moment) : Option SelectCase :=
  match w.done, w.tick with
  | true, true => if w.pickTick then some .tickerC else some .ctxDone
  | true, false => some .ctxDone
  | false, true => some .tickerC
  | false, false => none

/-- State of a run of `StartHealthCheck`: the pool, for every refresh that
was started (in order) whether cancellation had already been raised at that
time, and whether the function has returned. -/
structure LoopRun where
  pool : NodeManager
  cycles : List Bool
  returned : Bool
deriving DecidableEq, Repr

/-- The `for { select { ... } }` of `StartHealthCheck`, run through a
sequence of moments: `return` on `ctx.Done()`, `m.checkHealth(ctx)` on a
tick. -/
def healthLoop (m : NodeManager) : List Moment → Except GoPanic LoopRun
  | [] => .ok ⟨m, [], false⟩
  | w :: ws =>
    match selectCase w with
    | some .ctxDone => .ok ⟨m, [], true⟩
    | some .tickerC =>
      match checkHealthCtx (cancelledAt w) w.net m with
      | .ok m' =>
        match healthLoop m' ws with
        | .ok r => .ok { r with cycles := w.done :: r.cycles }
        | .error e => .error e
      | .error e => .error e
    | none => healthLoop m ws

/-- `StartHealthCheck(ctx, interval)`: `time.NewTicker(interval)`, which
panics unless the interval is positive, then the loop. -/
def StartHealthCheck (interval : Int) (m : NodeManager) (ws : List Moment) :
    Except GoPanic LoopRun :=
  if interval ≤ 0 then .error .nonPositiveInterval else healthLoop m ws

/-! ## Specification vocabulary -/

/-- The RPC URLs whose dial succeeded, the `i`-th URL being dial attempt `i`. -/
def dialedRPC (dial : DialOracle) (rpcEndpoints : List String) : List String :=
  (dialAll dial 0 rpcEndpoints).map Client.url

/-- The pool states the program can be in: what `NewNodeManager` returns, and
what `checkHealth` makes of such a state. -/
inductive Reachable : NodeManager → Prop where
  | construct (dial : DialOracle) (rpc ws : List String) (m : NodeManager) :
      (NewNodeManager dial rpc ws).1 = .ok m → Reachable m
  | refresh (probe : ProbeOracle) (m m' : NodeManager) :
      Reachable m → checkHealth probe m = .ok m' → Reachable m'

/-- The `select` at moment `w` takes the ticker case. -/
def tickTaken (w : Moment) : Bool := decide (selectCase w = some .tickerC)

/-- The refreshes of a list of moments, one after the other. -/
def runRefreshes : List Moment → NodeManager → Except GoPanic NodeManager
  | [], m => .ok m
  | w :: ws, m =>
    match checkHealthCtx (cancelledAt w) w.net m with
    | .ok m' => runRefreshes ws m'
    | .error e => .error e

/-- Cancellation has been raised by the time the loop is through with `w`. -/
def raisedBy (w : Moment) : Bool :=
  w.done || (tickTaken w && w.cancelAfter.isSome)

/-- Cancellation is permanent: once raised, `ctx.Done()` is closed at every
later moment. -/
def cancelStays : List Moment → Bool
  | [] => true
  | w :: ws => (!raisedBy w || ws.all Moment.done) && cancelStays ws

end Node

namespace Contracts

/-! ## Contract wrapper -/

/-- go-ethereum `isHexCharacter`. -/
def isHexCharacter (c : Char) : Bool :=
  ('0' ≤ c && c ≤ '9') || ('a' ≤ c && c ≤ 'f') || ('A' ≤ c && c ≤ 'F')

/-- go-ethereum `has0xPrefix`. -/
def has0xPrefix (s : List Char) : Bool :=
  match s with
  | c0 :: c1 :: _ => c0 == '0' && (c1 == 'x' || c1 == 'X')
  | _ => false

/-- go-ethereum `isHex`. -/
def isHex (s : List Char) : Bool :=
  s.length % 2 == 0 && s.all isHexCharacter

/-- Modelled from the spec: `common.IsHexAddress` is code of the go-ethereum
library, which is not among the sources. The spec asks for a well-formed
20-byte hexadecimal address: 40 hexadecimal digits, optionally prefixed by 0x
(the library reads the letter of the marker in either case). -/
def IsHexAddress (address : String) : Bool :=
  let s := address.data
  let s := if has0xPrefix s then s.drop 2 else s
  s.length == 2 * 20 && isHex s

/-- Value of a hexadecimal digit. -/
def hexDigit (c : Char) : Nat :=
  if '0' ≤ c ∧ c ≤ '9' then c.toNat - '0'.toNat
  else if 'a' ≤ c ∧ c ≤ 'f' then c.toNat - 'a'.toNat + 10
  else c.toNat - 'A'.toNat + 10

/-- Modelled from the spec: `common.HexToAddress`, library code as well; the
20-byte identifier a well-formed address string denotes, as a number. -/
def HexToAddress (address : String) : Nat :=
  let s := address.data
  let s := if has0xPrefix s then s.drop 2 else s
  s.foldl (fun acc c => (acc * 16 + hexDigit c) % 2 ^ 160) 0

/-- A remote call made through a connection handle. -/
inductive ClientCall where
  | callContract (toAddress : Nat) (data : List Nat)
  | blockNumber
deriving DecidableEq, Repr

/-- The errors of `NewArbitrageContract`. -/
inductive ContractError where
  /-- "invalid contract address: ..." -/
  | invalidAddress (address : String)
  /-- "parsing ABI: ..." -/
  | parsingABI
deriving DecidableEq, Repr

/-- The struct `ArbitrageContract`; `abi` is the parsed interface (the names
of its methods), `client` and `transactor` are the values handed in. -/
structure ArbitrageContract where
  address : Nat
  abi : List String
  client : Node.Client
  transactor : Nat
deriving DecidableEq, Repr

/-- `NewArbitrageContract(address, client, transactor)`. `parsedABI` is what
`abi.JSON` makes of the constant `arbitrageABI`. The second component lists
the calls made on `client`, in order. -/
def NewArbitrageContract (parsedABI : Except Unit (List String)) (address : String)
    (client : Node.Client) (transactor : Nat) :
    Except ContractError ArbitrageContract × List ClientCall :=
  if !IsHexAddress address then (.error (.invalidAddress address), [])
  else
    match parsedABI with
    | .error _ => (.error .parsingABI, [])
    | .ok contractABI =>
      (.ok
        { address := HexToAddress address
          abi := contractABI
          client := client
          transactor := transactor },
       [])

end Contracts

namespace Node

/-! ## The scenario of the specification -/

/-- Dial outcome of the scenario: only "bad2" fails to dial. -/
def scenarioDial : DialOracle := fun _ u => u != "bad2"

/-- RPC list of the scenario. -/
def scenarioRPC : List String := ["good1", "bad2", "good3"]

/-- The pool `NewNodeManager` builds in the scenario. -/
def scenarioPool : NodeManager :=
  { primaryClient := some ⟨0, "good1"⟩
    backupClients := [⟨2, "good3"⟩]
    wsClients := []
    healthChecks := [("good1", true), ("bad2", true), ("good3", true)]
    endpoints := ["good1", "bad2", "good3"]
    wsEndpoints := [] }

/-- The scenario pool after a refresh in which the probe of the primary
failed and the probe of the backup succeeded. -/
def scenarioDegraded : NodeManager :=
  { scenarioPool with
    healthChecks := [("good1", false), ("bad2", true), ("good3", true)] }

/-- Probe outcome: only the handle bound to "good3" fails its probe. -/
def scenarioProbe : ProbeOracle := fun c => c.url != "good3"

/-- The scenario pool after a refresh with `scenarioProbe`. -/
def scenarioMisattributed : NodeManager :=
  { scenarioPool with
    healthChecks := [("good1", true), ("bad2", false), ("good3", true)] }

/-- A moment at which cancellation has been raised, a tick is waiting and
the run time chooses the ticker case; every node answers. -/
def cancelledWithTick : Moment := ⟨true, true, true, fun _ => true, none⟩

/-- A moment at which cancellation has been raised and no tick is waiting. -/
def cancelledNoTick : Moment := ⟨true, false, false, fun _ => true, none⟩

/-- A tick before cancellation; the cancellation is raised during the
refresh, when the call on the primary has completed and the call on the
backup is outstanding; every node answers. -/
def cancelledInFlight : Moment := ⟨false, true, false, fun _ => true, some 1⟩

/-- The same tick with no cancellation during the refresh. -/
def tickNoCancel : Moment := ⟨false, true, false, fun _ => true, none⟩

/-- The scenario pool after a refresh all of whose calls ran on a cancelled
context. -/
def scenarioAllAborted : NodeManager :=
  { scenarioPool with
    healthChecks := [("good1", false), ("bad2", false), ("good3", true)] }

/-- The scenario pool after a refresh whose call on the backup was aborted. -/
def scenarioBackupAborted : NodeManager :=
  { scenarioPool with
    healthChecks := [("good1", true), ("bad2", false), ("good3", true)] }

end Node

namespace Node

/-! ## Lemmas on the health map -/

theorem mem_mapKeys_mapSet (hm : HealthMap) (k : String) (v : Bool) (u : String) :
    u ∈ mapKeys (mapSet hm k v) ↔ u = k ∨ u ∈ mapKeys hm := by
  induction hm with
  | nil => simp [mapSet, mapKeys]
  | cons p rest ih =>
    obtain ⟨k', v'⟩ := p
    unfold mapSet
    by_cases hk : k' = k
    · subst hk
      simp [mapKeys]
    · have ih' : u ∈ List.map Prod.fst (mapSet rest k v) ↔ u = k ∨ u ∈ List.map Prod.fst rest := ih
      simp only [hk, if_false, mapKeys, List.map_cons, List.mem_cons, ih']
      tauto

theorem mapGet_mapSet_same (hm : HealthMap) (k : String) (v : Bool) :
    mapGet (mapSet hm k v) k = v := by
  induction hm with
  | nil => simp [mapSet, mapGet]
  | cons p rest ih =>
    obtain ⟨k', v'⟩ := p
    unfold mapSet
    by_cases hk : k' = k
    · simp [hk, mapGet]
    · simp [hk, mapGet, ih]

theorem mapGet_mapSet_other (hm : HealthMap) (k k2 : String) (v : Bool) (hne : k ≠ k2) :
    mapGet (mapSet hm k v) k2 = mapGet hm k2 := by
  induction hm with
  | nil => simp [mapSet, mapGet, hne]
  | cons p rest ih =>
    obtain ⟨k', v'⟩ := p
    unfold mapSet
    by_cases hk : k' = k
    · subst hk
      simp [mapGet, hne]
    · by_cases hk2 : k' = k2
      · subst hk2
        simp [hk, mapGet]
      · simp [hk, hk2, mapGet, ih]

theorem mem_mapKeys_foldl_set (l : List String) (acc : HealthMap) (u : String) :
    u ∈ mapKeys (l.foldl (fun hm endpoint => mapSet hm endpoint true) acc)
      ↔ u ∈ mapKeys acc ∨ u ∈ l := by
  induction l generalizing acc with
  | nil => simp
  | cons e rest ih =>
    simp only [List.foldl_cons, ih, mem_mapKeys_mapSet, List.mem_cons]
    tauto

theorem mem_mapKeys_initHealth (rpc : List String) (u : String) :
    u ∈ mapKeys (initHealth rpc) ↔ u ∈ rpc := by
  unfold initHealth
  rw [mem_mapKeys_foldl_set]
  simp [mapKeys]

theorem mapGet_true_of_values_true (hm : HealthMap) (u : String)
    (hall : ∀ p ∈ hm, p.2 = true) (hu : u ∈ mapKeys hm) : mapGet hm u = true := by
  induction hm with
  | nil => simp [mapKeys] at hu
  | cons p rest ih =>
    obtain ⟨k', v'⟩ := p
    unfold mapGet
    by_cases hk : k' = u
    · simp only [hk, if_true]
      exact hall (k', v') (List.mem_cons_self _ _)
    · simp only [hk, if_false]
      apply ih
      · intro q hq
        exact hall q (List.mem_cons_of_mem _ hq)
      · simp only [mapKeys, List.map_cons, List.mem_cons] at hu
        rcases hu with h1 | h1
        · exact absurd h1.symm hk
        · exact h1

theorem values_true_mapSet (hm : HealthMap) (k : String)
    (hall : ∀ p ∈ hm, p.2 = true) : ∀ p ∈ mapSet hm k true, p.2 = true := by
  induction hm with
  | nil =>
    intro p hp
    simp only [mapSet, List.mem_singleton] at hp
    rw [hp]
  | cons q rest ih =>
    obtain ⟨k', v'⟩ := q
    intro p hp
    unfold mapSet at hp
    by_cases hk : k' = k
    · simp only [hk, if_true, List.mem_cons] at hp
      rcases hp with h1 | h1
      · rw [h1]
      · exact hall p (List.mem_cons_of_mem _ h1)
    · simp only [hk, if_false, List.mem_cons] at hp
      rcases hp with h1 | h1
      · rw [h1]
        exact hall (k', v') (List.mem_cons_self _ _)
      · exact ih (fun q hq => hall q (List.mem_cons_of_mem _ hq)) p h1

theorem values_true_foldl_set (l : List String) (acc : HealthMap)
    (hall : ∀ p ∈ acc, p.2 = true) :
    ∀ p ∈ l.foldl (fun hm endpoint => mapSet hm endpoint true) acc, p.2 = true := by
  induction l generalizing acc with
  | nil => simpa using hall
  | cons e rest ih =>
    simp only [List.foldl_cons]
    exact ih _ (values_true_mapSet acc e hall)

/-- After the last loop of the constructor every configured URL reads true. -/
theorem mapGet_initHealth (rpc : List String) (u : String) (hu : u ∈ rpc) :
    mapGet (initHealth rpc) u = true := by
  apply mapGet_true_of_values_true
  · unfold initHealth
    apply values_true_foldl_set
    intro p hp
    simp at hp
  · exact (mem_mapKeys_initHealth rpc u).2 hu

/-- The backup loop only writes entries of URLs of the endpoint list. -/
theorem mem_mapKeys_checkBackups (probe : ProbeOracle) (eps : List String) (cs : List Client)
    (i : Nat) (hm : HealthMap) (u : String) :
    (u ∈ mapKeys (checkBackups probe eps i cs hm) → u ∈ mapKeys hm ∨ u ∈ eps) ∧
    (u ∈ mapKeys hm → u ∈ mapKeys (checkBackups probe eps i cs hm)) := by
  induction cs generalizing i hm with
  | nil =>
    simp only [checkBackups]
    exact ⟨fun h => Or.inl h, fun h => h⟩
  | cons c rest ih =>
    unfold checkBackups
    by_cases h : i + 1 < eps.length
    · simp only [h, dite_true]
      constructor
      · intro hu
        rcases (ih (i + 1) _).1 hu with h1 | h1
        · rcases (mem_mapKeys_mapSet _ _ _ _).1 h1 with h2 | h2
          · right
            rw [h2]
            exact List.get_mem _ _ _
          · exact Or.inl h2
        · exact Or.inr h1
      · intro hu
        exact (ih (i + 1) _).2 ((mem_mapKeys_mapSet _ _ _ _).2 (Or.inr hu))
    · simp only [h, dite_false]
      exact ih (i + 1) hm

/-! ## Lemmas on construction and refresh -/

theorem newNodeManager_ok_iff (dial : DialOracle) (rpc ws : List String) (m : NodeManager) :
    (NewNodeManager dial rpc ws).1 = .ok m ↔
      ∃ primary backups, rpc = primary :: backups ∧ dial 0 primary = true ∧
        m = { primaryClient := some ⟨0, primary⟩
              backupClients := dialAll dial 1 backups
              wsClients := dialAll dial rpc.length ws
              healthChecks := initHealth rpc
              endpoints := rpc
              wsEndpoints := ws } := by
  cases rpc with
  | nil => simp [NewNodeManager]
  | cons primary backups =>
    by_cases hd : dial 0 primary = true
    · simp only [NewNodeManager, hd, if_true, Except.ok.injEq, List.cons.injEq]
      constructor
      · intro h
        exact ⟨primary, backups, ⟨rfl, rfl⟩, hd, h.symm⟩
      · rintro ⟨p, b, ⟨rfl, rfl⟩, _, h⟩
        exact h.symm
    · simp only [NewNodeManager, hd]
      constructor
      · intro h
        simp at h
      · rintro ⟨p, b, h1, h2, _⟩
        simp only [List.cons.injEq] at h1
        rw [← h1.1] at h2
        exact absurd h2 hd

/-- A refresh changes the health map only, and adds no key outside the
endpoint list. -/
theorem checkHealth_ok (probe : ProbeOracle) (m m' : NodeManager)
    (h : checkHealth probe m = .ok m') :
    m'.primaryClient = m.primaryClient ∧ m'.backupClients = m.backupClients ∧
    m'.wsClients = m.wsClients ∧ m'.endpoints = m.endpoints ∧
    m'.wsEndpoints = m.wsEndpoints ∧
    (∀ u, u ∈ mapKeys m'.healthChecks → u ∈ mapKeys m.healthChecks ∨ u ∈ m.endpoints) ∧
    (∀ u, u ∈ mapKeys m.healthChecks → u ∈ mapKeys m'.healthChecks) := by
  unfold checkHealth at h
  cases hp : m.primaryClient with
  | none =>
    simp only [hp, Except.ok.injEq] at h
    subst h
    refine ⟨rfl, rfl, rfl, rfl, rfl, ?_, ?_⟩
    · intro u hu
      exact (mem_mapKeys_checkBackups _ _ _ _ _ _).1 hu
    · intro u hu
      exact (mem_mapKeys_checkBackups _ _ _ _ _ _).2 hu
  | some c =>
    cases he : m.endpoints with
    | nil => simp [hp, he] at h
    | cons e rest =>
      simp only [hp, he, Except.ok.injEq] at h
      subst h
      refine ⟨rfl, rfl, rfl, rfl, rfl, ?_, ?_⟩
      · intro u hu
        have := (mem_mapKeys_checkBackups probe (e :: rest) m.backupClients 0 _ u).1 hu
        rcases this with h1 | h1
        · rcases (mem_mapKeys_mapSet _ _ _ _).1 h1 with h2 | h2
          · right
            simp [h2]
          · exact Or.inl h2
        · exact Or.inr h1
      · intro u hu
        exact (mem_mapKeys_checkBackups probe (e :: rest) m.backupClients 0 _ u).2
          ((mem_mapKeys_mapSet _ _ _ _).2 (Or.inr hu))

/-- A refresh does not panic on a pool with a non-empty endpoint list. -/
theorem checkHealth_total (probe : ProbeOracle) (m : NodeManager) (h : m.endpoints ≠ []) :
    ∃ m', checkHealth probe m = .ok m' := by
  unfold checkHealth
  cases hp : m.primaryClient with
  | none => exact ⟨_, rfl⟩
  | some c =>
    cases he : m.endpoints with
    | nil => exact absurd he h
    | cons e rest => exact ⟨_, rfl⟩

/-- Refreshes in a row do not panic on a pool with endpoints; they change the
health map only and keep its key set within keys and endpoints. -/
theorem checkHealthMany_ok (probes : List ProbeOracle) (m : NodeManager) (h : m.endpoints ≠ []) :
    ∃ m', checkHealthMany probes m = .ok m' ∧
      m'.primaryClient = m.primaryClient ∧ m'.backupClients = m.backupClients ∧
      m'.wsClients = m.wsClients ∧ m'.endpoints = m.endpoints ∧
      m'.wsEndpoints = m.wsEndpoints ∧
      (∀ u, u ∈ mapKeys m'.healthChecks → u ∈ mapKeys m.healthChecks ∨ u ∈ m.endpoints) ∧
      (∀ u, u ∈ mapKeys m.healthChecks → u ∈ mapKeys m'.healthChecks) := by
  induction probes generalizing m with
  | nil => exact ⟨m, rfl, rfl, rfl, rfl, rfl, rfl, fun u hu => Or.inl hu, fun u hu => hu⟩
  | cons probe rest ih =>
    obtain ⟨m1, h1⟩ := checkHealth_total probe m h
    obtain ⟨e1, e2, e3, e4, e5, k1, k2⟩ := checkHealth_ok probe m m1 h1
    have h1ne : m1.endpoints ≠ [] := by rw [e4]; exact h
    obtain ⟨m2, h2, f1, f2, f3, f4, f5, l1, l2⟩ := ih m1 h1ne
    refine ⟨m2, ?_, f1.trans e1, f2.trans e2, f3.trans e3, f4.trans e4, f5.trans e5, ?_, ?_⟩
    · simp only [checkHealthMany, h1]
      exact h2
    · intro u hu
      rcases l1 u hu with h3 | h3
      · exact k1 u h3
      · rw [e4] at h3
        exact Or.inr h3
    · intro u hu
      exact l2 u (k2 u hu)

/-- Handles made by a dial loop starting at attempt `k`. -/
theorem mem_dialAll (dial : DialOracle) (us : List String) (k : Nat) (c : Client) :
    c ∈ dialAll dial k us ↔
      ∃ j, us[j]? = some c.url ∧ c.id = k + j ∧ dial (k + j) c.url = true := by
  induction us generalizing k with
  | nil => simp [dialAll]
  | cons u rest ih =>
    have step : (∃ j, (u :: rest)[j]? = some c.url ∧ c.id = k + j ∧ dial (k + j) c.url = true) ↔
        ((u = c.url ∧ c.id = k ∧ dial k c.url = true) ∨
          ∃ j, rest[j]? = some c.url ∧ c.id = k + 1 + j ∧ dial (k + 1 + j) c.url = true) := by
      constructor
      · rintro ⟨j, h1, h2, h3⟩
        cases j with
        | zero =>
          left
          exact ⟨by simpa using h1, by simpa using h2, by simpa using h3⟩
        | succ j =>
          right
          refine ⟨j, by simpa using h1, by omega, ?_⟩
          rw [show k + 1 + j = k + (j + 1) by omega]
          exact h3
      · rintro (⟨h1, h2, h3⟩ | ⟨j, h1, h2, h3⟩)
        · exact ⟨0, by simp [h1], by simpa using h2, by simpa using h3⟩
        · refine ⟨j + 1, by simpa using h1, by omega, ?_⟩
          rw [show k + (j + 1) = k + 1 + j by omega]
          exact h3
    rw [step]
    unfold dialAll
    by_cases hd : dial k u = true
    · simp only [hd, if_true, List.mem_cons, ih]
      constructor
      · rintro (h | h)
        · left
          subst h
          exact ⟨rfl, rfl, hd⟩
        · exact Or.inr h
      · rintro (⟨h1, h2, _⟩ | h)
        · left
          obtain ⟨i, w⟩ := c
          simp only at h1 h2
          subst h1 h2
          rfl
        · exact Or.inr h
    · have hd' : dial k u = false := by simpa using hd
      simp only [hd', Bool.false_eq_true, if_false, ih]
      constructor
      · intro h
        exact Or.inr h
      · rintro (⟨h1, _, h3⟩ | h)
        · rw [← h1] at h3
          exact absurd h3 hd
        · exact h

/-- Slice indexing below the length does not panic and yields an element. -/
theorem index_lt (s : List Client) (i : Nat) (h : i < s.length) :
    ∃ c, index s i = .ok c ∧ c ∈ s ∧ s[i]? = some c := by
  refine ⟨s.get ⟨i, h⟩, ?_, List.get_mem _ _ _, ?_⟩
  · simp [index, List.getElem?_eq_getElem h]
  · simp [List.getElem?_eq_getElem h]

/-- What holds of every pool the program can be in. -/
theorem reachable_inv (m : NodeManager) (h : Reachable m) :
    ∃ primary rest, m.endpoints = primary :: rest ∧
      m.primaryClient = some ⟨0, primary⟩ ∧ ∀ c ∈ m.backupClients, 1 ≤ c.id := by
  induction h with
  | construct dial rpc ws m hm =>
    obtain ⟨primary, backups, h1, _, h3⟩ := (newNodeManager_ok_iff dial rpc ws m).1 hm
    subst h3
    refine ⟨primary, backups, h1, rfl, ?_⟩
    intro c hc
    obtain ⟨j, _, h5, _⟩ := (mem_dialAll dial backups 1 c).1 hc
    omega
  | refresh probe m m' _ hc ih =>
    obtain ⟨primary, rest, h1, h2, h3⟩ := ih
    obtain ⟨e1, e2, _, e4, _⟩ := checkHealth_ok probe m m' hc
    refine ⟨primary, rest, e4.trans h1, e1.trans h2, ?_⟩
    rw [e2]
    exact h3

end Node

namespace Node

/-! ## Construction -/

/-- C1, as the code has it: when `NewNodeManager` succeeds, the keys of
`healthChecks` are exactly the configured RPC URLs, whatever the outcome of
the backup dials, and every one of them, a URL whose dial failed included,
is initialised to true; any number of `checkHealth` refreshes runs without
panic and leaves this key set as it is. -/
theorem healthChecks_keys_eq_configured (dial : DialOracle) (rpc ws : List String)
    (m : NodeManager) (h : (NewNodeManager dial rpc ws).1 = .ok m)
    (probes : List ProbeOracle) :
    (∀ u, u ∈ mapKeys m.healthChecks ↔ u ∈ rpc) ∧
    (∀ u, u ∈ rpc → mapGet m.healthChecks u = true) ∧
    ∃ m', checkHealthMany probes m = .ok m' ∧
      ∀ u, u ∈ mapKeys m'.healthChecks ↔ u ∈ rpc := by
  obtain ⟨primary, backups, h1, _, h3⟩ := (newNodeManager_ok_iff dial rpc ws m).1 h
  have hne : m.endpoints ≠ [] := by
    subst h3
    simp [h1]
  have hkeys : ∀ u, u ∈ mapKeys m.healthChecks ↔ u ∈ rpc := by
    intro u
    subst h3
    exact mem_mapKeys_initHealth rpc u
  have hep : m.endpoints = rpc := by
    subst h3
    rfl
  obtain ⟨m', hm', _, _, _, _, _, k1, k2⟩ := checkHealthMany_ok probes m hne
  refine ⟨hkeys, ?_, m', hm', fun u => ⟨fun hu => ?_, fun hu => ?_⟩⟩
  · intro u hu
    subst h3
    exact mapGet_initHealth rpc u hu
  · rcases k1 u hu with h4 | h4
    · exact (hkeys u).1 h4
    · rw [hep] at h4
      exact h4
  · exact k2 u ((hkeys u).2 hu)

/-- Instance of `healthChecks_keys_eq_configured`: the scenario, followed by
one refresh in which every probe fails. -/
theorem healthChecks_keys_eq_configured_witness :
    (NewNodeManager scenarioDial scenarioRPC []).1 = .ok scenarioPool ∧
    ((∀ u, u ∈ mapKeys scenarioPool.healthChecks ↔ u ∈ scenarioRPC) ∧
    (∀ u, u ∈ scenarioRPC → mapGet scenarioPool.healthChecks u = true) ∧
    ∃ m', checkHealthMany [fun _ => false] scenarioPool = .ok m' ∧
      ∀ u, u ∈ mapKeys m'.healthChecks ↔ u ∈ scenarioRPC) :=
  ⟨by decide,
   healthChecks_keys_eq_configured scenarioDial scenarioRPC [] scenarioPool (by decide)
     [fun _ => false]⟩

/-- C1 as stated fails: in the scenario ("bad2" fails to dial) construction
succeeds, "bad2" is a key of `healthChecks` (with value true), and it is not
among the URLs whose dial succeeded; the key set is not the set of dialed
URLs. -/
theorem healthChecks_keys_include_failed_dial :
    (NewNodeManager scenarioDial scenarioRPC []).1 = .ok scenarioPool ∧
    mapKeys scenarioPool.healthChecks = ["good1", "bad2", "good3"] ∧
    dialedRPC scenarioDial scenarioRPC = ["good1", "good3"] ∧
    ¬ (∀ u, u ∈ mapKeys scenarioPool.healthChecks ↔ u ∈ dialedRPC scenarioDial scenarioRPC) := by
  refine ⟨by decide, by decide, by decide, ?_⟩
  intro h
  have h2 := (h "bad2").1 (by decide)
  revert h2
  decide

/-- C6: `NewNodeManager` returns a pool exactly when the RPC list is non-empty
and dial attempt 0, on its first URL, succeeds; when that dial fails the
result is the primary-dial error; and the outcome of all later dial attempts
(backups, streaming) has no influence on whether a pool is returned. -/
theorem newNodeManager_succeeds_iff (dial : DialOracle) (rpc ws : List String) :
    ((∃ m, (NewNodeManager dial rpc ws).1 = .ok m) ↔
      ∃ primary backups, rpc = primary :: backups ∧ dial 0 primary = true) ∧
    (∀ primary backups, rpc = primary :: backups → dial 0 primary = false →
      (NewNodeManager dial rpc ws).1 = .error .primaryDial) ∧
    (∀ dial2 : DialOracle, (∀ u, dial2 0 u = dial 0 u) →
      ((∃ m, (NewNodeManager dial2 rpc ws).1 = .ok m) ↔
        ∃ m, (NewNodeManager dial rpc ws).1 = .ok m)) := by
  have key : ∀ d : DialOracle, (∃ m, (NewNodeManager d rpc ws).1 = .ok m) ↔
      ∃ primary backups, rpc = primary :: backups ∧ d 0 primary = true := by
    intro d
    constructor
    · rintro ⟨m, hm⟩
      obtain ⟨primary, backups, h1, h2, _⟩ := (newNodeManager_ok_iff d rpc ws m).1 hm
      exact ⟨primary, backups, h1, h2⟩
    · rintro ⟨primary, backups, h1, h2⟩
      exact ⟨_, (newNodeManager_ok_iff d rpc ws _).2 ⟨primary, backups, h1, h2, rfl⟩⟩
  refine ⟨key dial, ?_, ?_⟩
  · intro primary backups h1 h2
    subst h1
    simp [NewNodeManager, h2]
  · intro dial2 hagree
    rw [key dial2, key dial]
    simp only [hagree]

/-- C7: with an empty RPC list `NewNodeManager` returns the no-endpoints error
and its dial log is empty, whatever the streaming list and the network. -/
theorem newNodeManager_empty_rpc (dial : DialOracle) (ws : List String) :
    NewNodeManager dial [] ws = (.error .noEndpoints, []) := rfl

/-! ## Selection -/

/-- C3: when the health entry of the primary URL reads false and there is at
least one backup, `GetClient` returns, for every draw, a handle of the backup
sequence; with exactly one backup it is that backup; and in every pool the
program can reach the returned handle is not the primary handle. -/
theorem getClient_unhealthy_primary (m : NodeManager) (draw : Nat)
    (primaryURL : String) (rest : List String)
    (hep : m.endpoints = primaryURL :: rest)
    (hbad : mapGet m.healthChecks primaryURL = false)
    (hbk : m.backupClients ≠ []) :
    ∃ c, GetClient m draw = .ok (some c) ∧ c ∈ m.backupClients ∧
      (∀ b, m.backupClients = [b] → c = b) ∧
      (Reachable m → m.primaryClient ≠ some c) := by
  have hlen : 0 < m.backupClients.length := List.length_pos.2 hbk
  have hlt : randIntn draw m.backupClients.length < m.backupClients.length :=
    Nat.mod_lt _ hlen
  obtain ⟨c, hc, hmem, _⟩ := index_lt m.backupClients _ hlt
  refine ⟨c, ?_, hmem, ?_, ?_⟩
  · simp only [GetClient, hep, hbad, hlen, hc]
    rfl
  · intro b hb
    rw [hb] at hmem
    simpa using hmem
  · intro hr hprim
    obtain ⟨primary, rest2, _, h2, h3⟩ := reachable_inv m hr
    rw [h2] at hprim
    have hid := h3 c hmem
    have : c.id = 0 := by
      have := Option.some.inj hprim
      rw [← this]
    omega

/-- Instance of `getClient_unhealthy_primary`: the scenario pool with "good1"
marked unhealthy and the single backup bound to "good3". -/
theorem getClient_unhealthy_primary_witness :
    scenarioDegraded.endpoints = "good1" :: ["bad2", "good3"] ∧
    mapGet scenarioDegraded.healthChecks "good1" = false ∧
    scenarioDegraded.backupClients ≠ [] ∧
    ∃ c, GetClient scenarioDegraded 100 = .ok (some c) ∧ c ∈ scenarioDegraded.backupClients ∧
      (∀ b, scenarioDegraded.backupClients = [b] → c = b) ∧
      (Reachable scenarioDegraded → scenarioDegraded.primaryClient ≠ some c) :=
  ⟨by decide, by decide, by decide,
   getClient_unhealthy_primary scenarioDegraded 100 "good1" ["bad2", "good3"]
     (by decide) (by decide) (by decide)⟩

/-- C4: when the health entry of the primary URL reads true, or when there is
no backup, `GetClient` returns the primary handle, for every draw. -/
theorem getClient_primary (m : NodeManager) (draw : Nat)
    (primaryURL : String) (rest : List String)
    (hep : m.endpoints = primaryURL :: rest)
    (h : mapGet m.healthChecks primaryURL = true ∨ m.backupClients = []) :
    GetClient m draw = .ok m.primaryClient := by
  rcases h with h | h
  · simp [GetClient, hep, h]
  · by_cases hh : mapGet m.healthChecks primaryURL = true
    · simp [GetClient, hep, hh]
    · simp [GetClient, hep, hh, h]

/-- Instance of `getClient_primary`: the scenario pool, primary healthy. -/
theorem getClient_primary_witness :
    scenarioPool.endpoints = "good1" :: ["bad2", "good3"] ∧
    (mapGet scenarioPool.healthChecks "good1" = true ∨ scenarioPool.backupClients = []) ∧
    GetClient scenarioPool 5 = .ok scenarioPool.primaryClient :=
  ⟨by decide, by decide,
   getClient_primary scenarioPool 5 "good1" ["bad2", "good3"] (by decide) (by decide)⟩

/-- C10: in every pool reachable from a successful `NewNodeManager` by
`checkHealth` refreshes, the endpoint list is non-empty and the primary handle
present; `GetClient` does not panic and returns a non-nil handle that is the
primary or an element of the backup sequence; and `checkHealth` does not
panic and leaves primary handle, backup and streaming sequences and both
endpoint lists unchanged. -/
theorem reachable_getClient_safe (m : NodeManager) (h : Reachable m) :
    m.endpoints ≠ [] ∧ (∃ p, m.primaryClient = some p) ∧
    (∀ draw, ∃ c, GetClient m draw = .ok (some c) ∧
      (m.primaryClient = some c ∨ c ∈ m.backupClients)) ∧
    (∀ probe, ∃ m', checkHealth probe m = .ok m' ∧
      m'.primaryClient = m.primaryClient ∧ m'.backupClients = m.backupClients ∧
      m'.wsClients = m.wsClients ∧ m'.endpoints = m.endpoints ∧
      m'.wsEndpoints = m.wsEndpoints) := by
  obtain ⟨primary, rest, h1, h2, _⟩ := reachable_inv m h
  have hne : m.endpoints ≠ [] := by simp [h1]
  refine ⟨hne, ⟨_, h2⟩, ?_, ?_⟩
  · intro draw
    by_cases hh : mapGet m.healthChecks primary = true
    · exact ⟨⟨0, primary⟩, by simp [GetClient, h1, hh, h2], Or.inl h2⟩
    · by_cases hb : m.backupClients = []
      · exact ⟨⟨0, primary⟩, by simp [GetClient, h1, hh, h2, hb], Or.inl h2⟩
      · have hf : mapGet m.healthChecks primary = false := by simpa using hh
        have hlen : 0 < m.backupClients.length := List.length_pos.2 hb
        obtain ⟨c, hc, hmem, _⟩ :=
          index_lt m.backupClients (randIntn draw m.backupClients.length) (Nat.mod_lt _ hlen)
        refine ⟨c, ?_, Or.inr hmem⟩
        simp only [GetClient, h1, hf, hlen, hc]
        rfl
  · intro probe
    obtain ⟨m', hm'⟩ := checkHealth_total probe m hne
    obtain ⟨e1, e2, e3, e4, e5, _⟩ := checkHealth_ok probe m m' hm'
    exact ⟨m', hm', e1, e2, e3, e4, e5⟩

/-- Instance of `reachable_getClient_safe`: the pool of the scenario. -/
theorem reachable_getClient_safe_witness :
    Reachable scenarioPool ∧
    scenarioPool.endpoints ≠ [] ∧ (∃ p, scenarioPool.primaryClient = some p) ∧
    (∀ draw, ∃ c, GetClient scenarioPool draw = .ok (some c) ∧
      (scenarioPool.primaryClient = some c ∨ c ∈ scenarioPool.backupClients)) ∧
    (∀ probe, ∃ m', checkHealth probe scenarioPool = .ok m' ∧
      m'.primaryClient = scenarioPool.primaryClient ∧
      m'.backupClients = scenarioPool.backupClients ∧
      m'.wsClients = scenarioPool.wsClients ∧ m'.endpoints = scenarioPool.endpoints ∧
      m'.wsEndpoints = scenarioPool.wsEndpoints) :=
  ⟨Reachable.construct scenarioDial scenarioRPC [] scenarioPool (by decide),
   reachable_getClient_safe scenarioPool
     (Reachable.construct scenarioDial scenarioRPC [] scenarioPool (by decide))⟩

/-- C5: in a pool built by `NewNodeManager`, `GetWSClient` returns nil exactly
when every streaming dial failed; otherwise it returns a handle of the
streaming sequence, made by a successful dial of a streaming URL; and the
result depends neither on the health map nor on refreshes. -/
theorem getWSClient_nil_iff (dial : DialOracle) (rpc ws : List String) (m : NodeManager)
    (draw : Nat) (h : (NewNodeManager dial rpc ws).1 = .ok m) :
    (GetWSClient m draw = .ok none ↔
      ∀ j u, ws[j]? = some u → dial (rpc.length + j) u = false) ∧
    (GetWSClient m draw = .ok none ∨
      ∃ c, GetWSClient m draw = .ok (some c) ∧ c ∈ m.wsClients ∧
        ∃ j, ws[j]? = some c.url ∧ c.id = rpc.length + j ∧
          dial (rpc.length + j) c.url = true) ∧
    (∀ hm, GetWSClient { m with healthChecks := hm } draw = GetWSClient m draw) ∧
    (∀ probes m', checkHealthMany probes m = .ok m' →
      GetWSClient m' draw = GetWSClient m draw) := by
  obtain ⟨primary, backups, h1, _, h3⟩ := (newNodeManager_ok_iff dial rpc ws m).1 h
  have hws : m.wsClients = dialAll dial rpc.length ws := by rw [h3]
  have hne : m.endpoints ≠ [] := by
    rw [h3]
    simp [h1]
  have hempty : m.wsClients = [] ↔ ∀ j u, ws[j]? = some u → dial (rpc.length + j) u = false := by
    rw [hws]
    constructor
    · intro he j u hj
      by_contra hd
      have hd' : dial (rpc.length + j) u = true := by simpa using hd
      have : (⟨rpc.length + j, u⟩ : Client) ∈ dialAll dial rpc.length ws :=
        (mem_dialAll dial ws rpc.length _).2 ⟨j, hj, rfl, hd'⟩
      rw [he] at this
      simp at this
    · intro hall
      apply List.eq_nil_iff_forall_not_mem.2
      intro c hc
      obtain ⟨j, hj, _, hd⟩ := (mem_dialAll dial ws rpc.length c).1 hc
      rw [hall j c.url hj] at hd
      simp at hd
  have hcases : (m.wsClients = [] ∧ GetWSClient m draw = .ok none) ∨
      (m.wsClients ≠ [] ∧ ∃ c, GetWSClient m draw = .ok (some c) ∧ c ∈ m.wsClients) := by
    by_cases he : m.wsClients = []
    · left
      exact ⟨he, by simp [GetWSClient, he]⟩
    · right
      have hlen : 0 < m.wsClients.length := List.length_pos.2 he
      obtain ⟨c, hc, hmem, _⟩ :=
        index_lt m.wsClients (randIntn draw m.wsClients.length) (Nat.mod_lt _ hlen)
      refine ⟨he, c, ?_, hmem⟩
      have hlen' : ¬ m.wsClients.length = 0 := by omega
      simp only [GetWSClient, hlen', if_false, hc]
      rfl
  refine ⟨?_, ?_, ?_, ?_⟩
  · rw [← hempty]
    rcases hcases with ⟨he, hg⟩ | ⟨he, c, hg, _⟩
    · exact ⟨fun _ => he, fun _ => hg⟩
    · constructor
      · intro hn
        rw [hg] at hn
        simp at hn
      · intro hn
        exact absurd hn he
  · rcases hcases with ⟨_, hg⟩ | ⟨_, c, hg, hmem⟩
    · exact Or.inl hg
    · right
      rw [hws] at hmem
      exact ⟨c, hg, by rw [hws]; exact hmem, (mem_dialAll dial ws rpc.length c).1 hmem⟩
  · intro hm
    rfl
  · intro probes m' hm'
    obtain ⟨m2, h2, _, _, e3, _⟩ := checkHealthMany_ok probes m hne
    rw [hm'] at h2
    have : m' = m2 := Except.ok.inj h2
    subst this
    simp only [GetWSClient, e3]

/-- Instance of `getWSClient_nil_iff`: the scenario, which has no streaming
endpoint. -/
theorem getWSClient_nil_iff_witness :
    (NewNodeManager scenarioDial scenarioRPC []).1 = .ok scenarioPool ∧
    ((GetWSClient scenarioPool 3 = .ok none ↔
      ∀ j u, ([] : List String)[j]? = some u → scenarioDial (scenarioRPC.length + j) u = false) ∧
    (GetWSClient scenarioPool 3 = .ok none ∨
      ∃ c, GetWSClient scenarioPool 3 = .ok (some c) ∧ c ∈ scenarioPool.wsClients ∧
        ∃ j, ([] : List String)[j]? = some c.url ∧ c.id = scenarioRPC.length + j ∧
          scenarioDial (scenarioRPC.length + j) c.url = true) ∧
    (∀ hm, GetWSClient { scenarioPool with healthChecks := hm } 3 = GetWSClient scenarioPool 3) ∧
    (∀ probes m', checkHealthMany probes scenarioPool = .ok m' →
      GetWSClient m' 3 = GetWSClient scenarioPool 3)) :=
  ⟨by decide, getWSClient_nil_iff scenarioDial scenarioRPC [] scenarioPool 3 (by decide)⟩

/-! ## Health refresh -/

/-- C2 fails on the code: in the scenario the only backup handle is the one
dialed from "good3", its probe fails and the probe of the primary succeeds;
`checkHealth` then writes false into the entry of "bad2" and leaves the entry
of "good3" at true. -/
theorem checkHealth_writes_other_entry :
    (NewNodeManager scenarioDial scenarioRPC []).1 = .ok scenarioPool ∧
    scenarioPool.backupClients = [⟨2, "good3"⟩] ∧
    scenarioProbe ⟨2, "good3"⟩ = false ∧ scenarioProbe ⟨0, "good1"⟩ = true ∧
    checkHealth scenarioProbe scenarioPool = .ok scenarioMisattributed ∧
    mapGet scenarioMisattributed.healthChecks "good3" = true ∧
    mapGet scenarioMisattributed.healthChecks "bad2" = false ∧
    mapGet scenarioPool.healthChecks "bad2" = true := by
  decide

end Node

namespace Contracts

/-- C8: for every address string that `IsHexAddress` does not accept,
`NewArbitrageContract` returns the invalid-address error, no wrapper, and has
made no call on the connection handle. -/
theorem newArbitrageContract_rejects_malformed (parsedABI : Except Unit (List String))
    (address : String) (client : Node.Client) (transactor : Nat)
    (h : IsHexAddress address = false) :
    NewArbitrageContract parsedABI address client transactor =
      (.error (.invalidAddress address), []) := by
  simp [NewArbitrageContract, h]

/-- Instance of `newArbitrageContract_rejects_malformed`: a string of three
digits after the marker. -/
theorem newArbitrageContract_rejects_malformed_witness :
    IsHexAddress "0x123" = false ∧
    NewArbitrageContract (.ok ["executeArbitrage"]) "0x123" ⟨0, "good1"⟩ 0 =
      (.error (.invalidAddress "0x123"), []) :=
  ⟨by decide,
   newArbitrageContract_rejects_malformed (.ok ["executeArbitrage"]) "0x123" ⟨0, "good1"⟩ 0
     (by decide)⟩

end Contracts

namespace Node

/-! ## Lemmas on the refresh under a context -/

/-- With the result of every call given by `probe`, the refresh under a
context is the refresh with probe oracle `probe`. -/
theorem checkBackupsCtx_eq_checkBackups (ctx : Nat → Bool) (net probe : ProbeOracle)
    (eps : List String) (hagree : ∀ k c, BlockNumber (ctx k) net c = probe c)
    (cs : List Client) (i : Nat) (hm : HealthMap) :
    checkBackupsCtx ctx net eps i cs hm = checkBackups probe eps i cs hm := by
  induction cs generalizing i hm with
  | nil => rfl
  | cons c rest ih =>
    unfold checkBackupsCtx checkBackups
    by_cases h : i + 1 < eps.length
    · simp only [h, dite_true, hagree]
      exact ih (i + 1) _
    · simp only [h, dite_false]
      exact ih (i + 1) hm

theorem checkHealthCtx_eq_checkHealth (ctx : Nat → Bool) (net probe : ProbeOracle)
    (hagree : ∀ k c, BlockNumber (ctx k) net c = probe c) (m : NodeManager) :
    checkHealthCtx ctx net m = checkHealth probe m := by
  unfold checkHealthCtx checkHealth
  cases m.primaryClient with
  | none => simp only [checkBackupsCtx_eq_checkBackups ctx net probe m.endpoints hagree]
  | some c =>
    cases hm : m.endpoints with
    | nil => rfl
    | cons e rest =>
      simp only [checkBackupsCtx_eq_checkBackups ctx net probe (e :: rest) hagree, hagree]

/-- A refresh under a context does not panic on a pool with endpoints and
keeps the endpoint list. -/
theorem checkHealthCtx_total (ctx : Nat → Bool) (net : ProbeOracle) (m : NodeManager)
    (h : m.endpoints ≠ []) :
    ∃ m', checkHealthCtx ctx net m = .ok m' ∧ m'.endpoints = m.endpoints := by
  unfold checkHealthCtx
  cases hp : m.primaryClient with
  | none => exact ⟨_, rfl, rfl⟩
  | some c =>
    cases he : m.endpoints with
    | nil => exact absurd he h
    | cons e rest => exact ⟨_, rfl, rfl⟩

/-- The backup loop under a context is the backup loop whose probe oracle
gives, for the handle of each call, the result of that call. -/
theorem checkBackupsCtx_eq_of_calls (ctx : Nat → Bool) (net probe : ProbeOracle)
    (eps : List String) (cs : List Client) (i : Nat) (hm : HealthMap)
    (hagree : ∀ j c, cs[j]? = some c → probe c = BlockNumber (ctx (i + 1 + j)) net c) :
    checkBackupsCtx ctx net eps i cs hm = checkBackups probe eps i cs hm := by
  induction cs generalizing i hm with
  | nil => rfl
  | cons c rest ih =>
    have h0 : probe c = BlockNumber (ctx (i + 1)) net c := by
      have := hagree 0 c (by simp)
      simpa using this
    have hrest : ∀ j c', rest[j]? = some c' →
        probe c' = BlockNumber (ctx (i + 1 + 1 + j)) net c' := by
      intro j c' hj
      have := hagree (j + 1) c' (by simpa using hj)
      rw [show i + 1 + (j + 1) = i + 1 + 1 + j by omega] at this
      exact this
    unfold checkBackupsCtx checkBackups
    by_cases h : i + 1 < eps.length
    · simp only [h, dite_true, h0]
      exact ih (i + 1) _ hrest
    · simp only [h, dite_false]
      exact ih (i + 1) hm hrest

theorem checkHealthCtx_eq_of_calls (ctx : Nat → Bool) (net probe : ProbeOracle)
    (m : NodeManager)
    (hprim : ∀ c, m.primaryClient = some c → probe c = BlockNumber (ctx 0) net c)
    (hback : ∀ i c, m.backupClients[i]? = some c →
      probe c = BlockNumber (ctx (i + 1)) net c) :
    checkHealthCtx ctx net m = checkHealth probe m := by
  have hb : ∀ hm, checkBackupsCtx ctx net m.endpoints 0 m.backupClients hm =
      checkBackups probe m.endpoints 0 m.backupClients hm := by
    intro hm
    apply checkBackupsCtx_eq_of_calls
    intro j c hj
    rw [show 0 + 1 + j = j + 1 by omega]
    exact hback j c hj
  unfold checkHealthCtx checkHealth
  cases hp : m.primaryClient with
  | none => simp only [hb]
  | some c =>
    cases he : m.endpoints with
    | nil => rfl
    | cons e rest =>
      rw [he] at hb
      simp only [hb, hprim c hp]

theorem cancelledAt_mono (w : Moment) (j k : Nat) (hjk : j ≤ k)
    (hj : cancelledAt w j = true) : cancelledAt w k = true := by
  unfold cancelledAt at hj ⊢
  cases hd : w.done with
  | true => simp
  | false =>
    cases hc : w.cancelAfter with
    | none => simp [hd, hc] at hj
    | some n =>
      simp only [hd, hc, Bool.false_or, decide_eq_true_eq] at hj ⊢
      omega

/-- Once every remaining call runs on a cancelled context, an entry that
reads false still reads false after the backup loop. -/
theorem checkBackupsCtx_false_stays (ctx : Nat → Bool) (net : ProbeOracle)
    (eps : List String) (u : String) (cs : List Client) (i : Nat) (hm : HealthMap)
    (hctx : ∀ j, i + 1 ≤ j → ctx j = true) (hu : mapGet hm u = false) :
    mapGet (checkBackupsCtx ctx net eps i cs hm) u = false := by
  induction cs generalizing i hm with
  | nil => exact hu
  | cons c rest ih =>
    unfold checkBackupsCtx
    by_cases h : i + 1 < eps.length
    · simp only [h, dite_true]
      apply ih (i + 1) _ (fun j hj => hctx j (by omega))
      have hc : BlockNumber (ctx (i + 1)) net c = false := by
        simp [BlockNumber, hctx (i + 1) (le_refl _)]
      rw [hc]
      by_cases he : eps.get ⟨i + 1, h⟩ = u
      · rw [he]
        exact mapGet_mapSet_same hm u false
      · rw [mapGet_mapSet_other hm _ u false he]
        exact hu
    · simp only [h, dite_false]
      exact ih (i + 1) hm (fun j hj => hctx j (by omega)) hu

/-- The entry written for a backup whose call ran on a cancelled context
reads false after the backup loop. -/
theorem checkBackupsCtx_written_false (ctx : Nat → Bool) (net : ProbeOracle)
    (eps : List String) (u : String) (k : Nat)
    (hmono : ∀ j j', j ≤ j' → ctx j = true → ctx j' = true)
    (hk : ctx k = true) (hu : eps[k]? = some u)
    (cs : List Client) (i : Nat) (hm : HealthMap)
    (hlo : i + 1 ≤ k) (hhi : k < i + 1 + cs.length) :
    mapGet (checkBackupsCtx ctx net eps i cs hm) u = false := by
  induction cs generalizing i hm with
  | nil =>
    simp only [List.length_nil] at hhi
    omega
  | cons c rest ih =>
    have hklt : k < eps.length := by
      by_contra hge
      rw [List.getElem?_eq_none (by omega)] at hu
      simp at hu
    have h : i + 1 < eps.length := by omega
    unfold checkBackupsCtx
    simp only [h, dite_true]
    by_cases hik : k = i + 1
    · subst hik
      have hget : eps.get ⟨i + 1, h⟩ = u := by
        rw [List.getElem?_eq_getElem h] at hu
        exact Option.some.inj hu
      have hc : BlockNumber (ctx (i + 1)) net c = false := by
        simp [BlockNumber, hk]
      rw [hget, hc]
      apply checkBackupsCtx_false_stays
      · intro j hj
        exact hmono (i + 1) j (by omega) hk
      · exact mapGet_mapSet_same hm u false
    · simp only [List.length_cons] at hhi
      exact ih (i + 1) _ (by omega) (by omega)

/-- The entry of a handle whose call ran on a cancelled context reads false
after the refresh: the refresh goes through that handle all the same. -/
theorem checkHealthCtx_cancelled_false (w : Moment) (m0 m1 : NodeManager) (k : Nat)
    (u : String) (hrun : checkHealthCtx (cancelledAt w) w.net m0 = .ok m1)
    (hk : cancelledAt w k = true) (hu : m0.endpoints[k]? = some u)
    (hrange : (k = 0 ∧ m0.primaryClient ≠ none) ∨ (1 ≤ k ∧ k ≤ m0.backupClients.length)) :
    mapGet m1.healthChecks u = false := by
  have hmono : ∀ j j', j ≤ j' → cancelledAt w j = true → cancelledAt w j' = true :=
    fun j j' h1 h2 => cancelledAt_mono w j j' h1 h2
  unfold checkHealthCtx at hrun
  rcases hrange with ⟨hk0, hprim⟩ | ⟨hk1, hk2⟩
  · subst hk0
    cases hp : m0.primaryClient with
    | none => exact absurd hp hprim
    | some c =>
      cases he : m0.endpoints with
      | nil => simp [he] at hu
      | cons e rest =>
        simp only [hp, he, Except.ok.injEq] at hrun
        subst hrun
        have heu : e = u := by
          rw [he] at hu
          simpa using hu
        have hc : BlockNumber (cancelledAt w 0) w.net c = false := by
          simp [BlockNumber, hk]
        simp only [hc, heu]
        apply checkBackupsCtx_false_stays
        · intro j hj
          exact hmono 0 j (by omega) hk
        · exact mapGet_mapSet_same _ u false
  · cases hp : m0.primaryClient with
    | none =>
      simp only [hp, Except.ok.injEq] at hrun
      subst hrun
      exact checkBackupsCtx_written_false _ _ _ u k hmono hk hu _ 0 _ (by omega) (by omega)
    | some c =>
      cases he : m0.endpoints with
      | nil => simp [he] at hu
      | cons e rest =>
        simp only [hp, he, Except.ok.injEq] at hrun
        subst hrun
        rw [he] at hu
        exact checkBackupsCtx_written_false _ _ _ u k hmono hk hu _ 0 _ (by omega) (by omega)

/-- The loop over moments none of which takes the `Done` case: it runs the
refreshes of the moments that take the ticker case and has not returned; a
moment that takes the `Done` case makes it return, whatever follows. -/
theorem healthLoop_spec (pre : List Moment) (m : NodeManager) (hne : m.endpoints ≠ [])
    (hpre : ∀ v ∈ pre, selectCase v ≠ some .ctxDone) :
    ∃ pool, runRefreshes (pre.filter tickTaken) m = .ok pool ∧
      healthLoop m pre = .ok ⟨pool, (pre.filter tickTaken).map Moment.done, false⟩ ∧
      ∀ w post, selectCase w = some .ctxDone →
        healthLoop m (pre ++ w :: post) =
          .ok ⟨pool, (pre.filter tickTaken).map Moment.done, true⟩ := by
  induction pre generalizing m with
  | nil =>
    refine ⟨m, rfl, rfl, ?_⟩
    intro w post hw
    simp [healthLoop, hw]
  | cons v pre ih =>
    have hv : selectCase v ≠ some .ctxDone := hpre v (List.mem_cons_self _ _)
    have hrest : ∀ x ∈ pre, selectCase x ≠ some .ctxDone :=
      fun x hx => hpre x (List.mem_cons_of_mem _ hx)
    cases hs : selectCase v with
    | none =>
      have ht : tickTaken v = false := by simp [tickTaken, hs]
      obtain ⟨pool, h1, h2, h3⟩ := ih m hne hrest
      refine ⟨pool, ?_, ?_, ?_⟩
      · simpa [List.filter_cons, ht] using h1
      · simpa [List.filter_cons, ht, healthLoop, hs] using h2
      · intro w post hw
        simpa [List.filter_cons, ht, healthLoop, hs] using h3 w post hw
    | some sc =>
      cases sc with
      | ctxDone => exact absurd hs hv
      | tickerC =>
        have ht : tickTaken v = true := by simp [tickTaken, hs]
        obtain ⟨m1, hm1, he1⟩ := checkHealthCtx_total (cancelledAt v) v.net m hne
        have hne1 : m1.endpoints ≠ [] := by
          rw [he1]
          exact hne
        obtain ⟨pool, h1, h2, h3⟩ := ih m1 hne1 hrest
        refine ⟨pool, ?_, ?_, ?_⟩
        · simpa [List.filter_cons, ht, runRefreshes, hm1] using h1
        · simp [List.filter_cons, ht, healthLoop, hs, hm1, h2]
        · intro w post hw
          simp [List.filter_cons, ht, healthLoop, hs, hm1, h3 w post hw]

/-! ## Health monitor loop -/

/-- C9, as the code has it, for a positive interval (with another one
`time.NewTicker` panics and there is no loop) and a pool with endpoints. As
long as no `select` takes the `Done` case the loop has not
returned and has run exactly the refreshes of the moments whose `select` took
the ticker case; at the first `select` that takes the `Done` case it returns,
with no refresh there or afterwards. A `select` reached after cancellation
takes the `Done` case unless a tick is waiting too and the run time picks the
ticker case: then one more refresh is started. A refresh begun after
cancellation records every probe as failed; a refresh during which no
cancellation is raised records what the nodes answer; and a refresh in flight
when cancellation is raised is still a complete `checkHealth` over every
handle, in which a call succeeds exactly when it has completed before the
cancellation and the node answers, so that the entry of each handle whose
call had not completed reads false afterwards. -/
theorem startHealthCheck_cancellation (interval : Int) (m : NodeManager) (pre : List Moment)
    (hpos : 0 < interval) (hne : m.endpoints ≠ [])
    (hpre : ∀ v ∈ pre, selectCase v ≠ some .ctxDone) :
    (∃ pool, runRefreshes (pre.filter tickTaken) m = .ok pool ∧
      StartHealthCheck interval m pre =
        .ok ⟨pool, (pre.filter tickTaken).map Moment.done, false⟩ ∧
      ∀ w post, selectCase w = some .ctxDone →
        StartHealthCheck interval m (pre ++ w :: post) =
          .ok ⟨pool, (pre.filter tickTaken).map Moment.done, true⟩) ∧
    (∀ (d : Int) (m0 : NodeManager) (ws : List Moment), d ≤ 0 →
      StartHealthCheck d m0 ws = .error .nonPositiveInterval) ∧
    (∀ w : Moment, w.done = true →
      selectCase w = if w.tick && w.pickTick then some .tickerC else some .ctxDone) ∧
    (∀ (w : Moment) (m0 : NodeManager), w.done = true →
      checkHealthCtx (cancelledAt w) w.net m0 = checkHealth (fun _ => false) m0) ∧
    (∀ (w : Moment) (m0 : NodeManager), w.done = false → w.cancelAfter = none →
      checkHealthCtx (cancelledAt w) w.net m0 = checkHealth w.net m0) ∧
    (∀ (w : Moment) (m0 : NodeManager) (probe : ProbeOracle),
      (∀ c, m0.primaryClient = some c →
        probe c = BlockNumber (cancelledAt w 0) w.net c) →
      (∀ i c, m0.backupClients[i]? = some c →
        probe c = BlockNumber (cancelledAt w (i + 1)) w.net c) →
      checkHealthCtx (cancelledAt w) w.net m0 = checkHealth probe m0) ∧
    (∀ (w : Moment) (m0 m1 : NodeManager) (k : Nat) (u : String),
      checkHealthCtx (cancelledAt w) w.net m0 = .ok m1 →
      cancelledAt w k = true → m0.endpoints[k]? = some u →
      ((k = 0 ∧ m0.primaryClient ≠ none) ∨ (1 ≤ k ∧ k ≤ m0.backupClients.length)) →
      mapGet m1.healthChecks u = false) := by
  have hint : ¬ interval ≤ 0 := by omega
  refine ⟨?_, ?_, ?_, ?_, ?_, ?_, ?_⟩
  · obtain ⟨pool, h1, h2, h3⟩ := healthLoop_spec pre m hne hpre
    refine ⟨pool, h1, ?_, ?_⟩
    · simp only [StartHealthCheck, hint, if_false]
      exact h2
    · intro w post hw
      simp only [StartHealthCheck, hint, if_false]
      exact h3 w post hw
  · intro d m0 ws hd
    simp [StartHealthCheck, hd]
  · intro w hd
    obtain ⟨d, t, p, n, ca⟩ := w
    simp only at hd
    subst hd
    cases t <;> cases p <;> rfl
  · intro w m0 hd
    apply checkHealthCtx_eq_checkHealth
    intro k c
    simp [BlockNumber, cancelledAt, hd]
  · intro w m0 hd hc
    apply checkHealthCtx_eq_checkHealth
    intro k c
    simp [BlockNumber, cancelledAt, hd, hc]
  · intro w m0 probe hprim hback
    exact checkHealthCtx_eq_of_calls (cancelledAt w) w.net probe m0 hprim hback
  · intro w m0 m1 k u hrun hk hu hrange
    exact checkHealthCtx_cancelled_false w m0 m1 k u hrun hk hu hrange

/-- Instance of `startHealthCheck_cancellation`: interval 30, the scenario
pool, and one moment with cancellation raised whose waiting tick is taken. -/
theorem startHealthCheck_cancellation_witness :
    (0 : Int) < 30 ∧ scenarioPool.endpoints ≠ [] ∧
    (∀ v ∈ [cancelledWithTick], selectCase v ≠ some .ctxDone) ∧
    ((∃ pool, runRefreshes ([cancelledWithTick].filter tickTaken) scenarioPool = .ok pool ∧
      StartHealthCheck 30 scenarioPool [cancelledWithTick] =
        .ok ⟨pool, ([cancelledWithTick].filter tickTaken).map Moment.done, false⟩ ∧
      ∀ w post, selectCase w = some .ctxDone →
        StartHealthCheck 30 scenarioPool ([cancelledWithTick] ++ w :: post) =
          .ok ⟨pool, ([cancelledWithTick].filter tickTaken).map Moment.done, true⟩) ∧
    (∀ (d : Int) (m0 : NodeManager) (ws : List Moment), d ≤ 0 →
      StartHealthCheck d m0 ws = .error .nonPositiveInterval) ∧
    (∀ w : Moment, w.done = true →
      selectCase w = if w.tick && w.pickTick then some .tickerC else some .ctxDone) ∧
    (∀ (w : Moment) (m0 : NodeManager), w.done = true →
      checkHealthCtx (cancelledAt w) w.net m0 = checkHealth (fun _ => false) m0) ∧
    (∀ (w : Moment) (m0 : NodeManager), w.done = false → w.cancelAfter = none →
      checkHealthCtx (cancelledAt w) w.net m0 = checkHealth w.net m0) ∧
    (∀ (w : Moment) (m0 : NodeManager) (probe : ProbeOracle),
      (∀ c, m0.primaryClient = some c →
        probe c = BlockNumber (cancelledAt w 0) w.net c) →
      (∀ i c, m0.backupClients[i]? = some c →
        probe c = BlockNumber (cancelledAt w (i + 1)) w.net c) →
      checkHealthCtx (cancelledAt w) w.net m0 = checkHealth probe m0) ∧
    (∀ (w : Moment) (m0 m1 : NodeManager) (k : Nat) (u : String),
      checkHealthCtx (cancelledAt w) w.net m0 = .ok m1 →
      cancelledAt w k = true → m0.endpoints[k]? = some u →
      ((k = 0 ∧ m0.primaryClient ≠ none) ∨ (1 ≤ k ∧ k ≤ m0.backupClients.length)) →
      mapGet m1.healthChecks u = false)) :=
  ⟨by decide, by decide, by decide,
   startHealthCheck_cancellation 30 scenarioPool [cancelledWithTick]
     (by decide) (by decide) (by decide)⟩

/-- C9 as stated fails, in both parts. With cancellation raised and a tick
waiting, `select` may take the ticker case: the loop starts a refresh after
cancellation (the recorded flag is true), every probe of it fails, and the
loop has not returned. And a refresh in flight when cancellation is raised
does not go on undisturbed: the outstanding call on the backup is aborted and
its entry written false, although the node answers; with no cancellation the
same refresh leaves every entry true. -/
theorem startHealthCheck_refresh_after_cancel :
    cancelStays [cancelledWithTick] = true ∧
    cancelledWithTick.done = true ∧
    selectCase cancelledWithTick = some .tickerC ∧
    StartHealthCheck 30 scenarioPool [cancelledWithTick] =
      .ok ⟨scenarioAllAborted, [true], false⟩ ∧
    cancelStays [cancelledInFlight, cancelledNoTick] = true ∧
    StartHealthCheck 30 scenarioPool [cancelledInFlight, cancelledNoTick] =
      .ok ⟨scenarioBackupAborted, [false], true⟩ ∧
    StartHealthCheck 30 scenarioPool [tickNoCancel, cancelledNoTick] =
      .ok ⟨scenarioPool, [false], true⟩ ∧
    mapGet scenarioBackupAborted.healthChecks "bad2" = false ∧
    mapGet scenarioPool.healthChecks "bad2" = true := by
  decide

end Node
